import Mathlib

/-!
Verification development for the dividendsomatic repository.

Shallow embedding of the two Python source files:
  * `src/tools/yfinance_fetch.py`   — market-data fetcher (symbol translator,
    fetch routines, command dispatch).
  * `src/scripts/extract_lynx_pdfs.py` — PDF record extractor (dividend,
    9A-trade, cost parsing; date normalization; dedup).

Modelling conventions:
  * Python strings are Lean `String`s; the character-level work is done on
    `List Char` (the `data` field of `String`).
  * Python `float` amounts are modelled as exact decimal numbers (the
    `PyFloat` type below); binary floating point rounding is not modelled —
    all the decimal literals the claims exercise are treated exactly.
  * Regular-expression behaviour is hand-compiled to deterministic scanning
    functions; where a greedy/backtracking regex is replaced by maximal-munch
    scanning, a comment argues the equivalence for that pattern.
  * Fallible operations (`float(...)` with `try/except`, provider retrieval
    that may raise) are modelled with `Option` / an explicit outcome type.
-/

namespace Dividendsomatic

/-! ### Character-level helpers (Python string primitives) -/

/-- Python `str.replace(a, b)` for single characters (used for
`ib_symbol.replace(" ", "-")` and `yahoo.replace("/", "_")`). -/
def replaceChar (a b : Char) (l : List Char) : List Char :=
  l.map (fun c => if c = a then b else c)

/-- Python `cell.replace(",", "")`: drop every comma. -/
def stripCommas (l : List Char) : List Char :=
  l.filter (fun c => !(c == ','))

/-- Python `cell.replace(",", "").replace(" ", "")` from the cost path. -/
def stripCommasSpaces (l : List Char) : List Char :=
  l.filter (fun c => !(c == ',') && !(c == ' '))

/-- Whitespace as matched by Python `str.strip()` / regex `\s` (ASCII forms;
the exotic Unicode whitespace characters do not occur in this data). -/
def isSpaceChar (c : Char) : Bool :=
  c == ' ' || c == '\t' || c == '\n' || c == '\r'

/-- Python `str.strip()`. -/
def pyStrip (l : List Char) : List Char :=
  ((l.dropWhile isSpaceChar).reverse.dropWhile isSpaceChar).reverse

/-- Python `str.isdigit()` (ASCII digits; Unicode digit forms do not occur). -/
def isdigitL (l : List Char) : Bool :=
  !l.isEmpty && l.all Char.isDigit

/-- Python `str.isalpha()` (ASCII letters; Unicode letters do not occur). -/
def isalphaL (l : List Char) : Bool :=
  !l.isEmpty && l.all Char.isAlpha

/-- A letter as matched by `[A-Z]` under `re.IGNORECASE` (ASCII model). -/
def isAsciiLetter (c : Char) : Bool :=
  c.isUpper || c.isLower

/-- Python `str.zfill(n)`: left-pad with `'0'` to width `n`, keeping a
leading sign in front (the program only calls it on all-digit strings). -/
def zfillL (n : Nat) (l : List Char) : List Char :=
  if n ≤ l.length then l
  else
    match l with
    | '-' :: rest => '-' :: (List.replicate (n - l.length) '0' ++ rest)
    | '+' :: rest => '+' :: (List.replicate (n - l.length) '0' ++ rest)
    | _ => List.replicate (n - l.length) '0' ++ l

/-- One step of Python `str.replace(pat, repl)` (all non-overlapping
occurrences, left to right), with explicit fuel; `pat` is nonempty at every
call site, so each recursive call consumes at least one input character and
`fuel = length of the input` suffices. -/
def replaceAllAux (pat repl : List Char) : List Char → Nat → List Char
  | s, 0 => s
  | [], _ => []
  | c :: rest, fuel + 1 =>
    if pat.isPrefixOf (c :: rest) then
      repl ++ replaceAllAux pat repl ((c :: rest).drop pat.length) fuel
    else
      c :: replaceAllAux pat repl rest fuel

/-- Python `str.replace(pat, repl)` for a nonempty `pat` (the program only
uses `".UN" -> "-UN"`; the empty-pattern behaviour of Python is not needed). -/
def replaceAll (pat repl s : List Char) : List Char :=
  if pat.isEmpty then s else replaceAllAux pat repl s s.length

/-- Python substring containment `pat in s`. -/
def containsSub (pat : List Char) : List Char → Bool
  | [] => pat.isEmpty
  | c :: rest => pat.isPrefixOf (c :: rest) || containsSub pat rest

/-- Decimal digits to a natural number. -/
def digitsToNat (l : List Char) : Nat :=
  l.foldl (fun n c => n * 10 + (c.toNat - 48)) 0

/-- An exact decimal number `num / 10 ^ exp`, kept canonical (`exp = 0`, or
`num` not divisible by 10), standing in for a Python float. Every float this
program manipulates is parsed from a decimal string, and the distinct values
it ever compares are far apart relative to float precision, so exact-decimal
equality models float equality; binary rounding is not modelled. -/
structure PyFloat where
  num : Int
  exp : Nat
deriving DecidableEq, Repr

/-- Strip factors of ten to reach the canonical form. -/
def canonDecAux : Int → Nat → PyFloat
  | n, 0 => ⟨n, 0⟩
  | n, e + 1 => if n % 10 == 0 then canonDecAux (n / 10) e else ⟨n, e + 1⟩

/-- The decimal `n / 10 ^ e` as a canonical `PyFloat`. -/
def mkPyFloat (n : Int) (e : Nat) : PyFloat :=
  canonDecAux n e

/-- Python `abs` on a float (canonical form is preserved). -/
def PyFloat.abs (q : PyFloat) : PyFloat :=
  ⟨|q.num|, q.exp⟩

/-- Test `q > 0` for a float. -/
def PyFloat.isPos (q : PyFloat) : Bool :=
  decide (0 < q.num)

/-- Python `float(s)` on the plain decimal strings produced by this program:
optional sign, then digits with at most one decimal point and at least one
digit overall. Scientific notation, `inf`/`nan` and digit underscores are not
modelled — no string this program feeds to `float` uses them. Returns the
exact decimal value. -/
def pythonFloat? (l : List Char) : Option PyFloat :=
  let (neg, l1) :=
    match l with
    | '-' :: r => (true, r)
    | '+' :: r => (false, r)
    | _ => (false, l)
  let ip := l1.takeWhile Char.isDigit
  let l2 := l1.drop ip.length
  match l2 with
  | [] =>
    if ip.isEmpty then none
    else some (mkPyFloat ((if neg then -1 else 1) * (digitsToNat ip : Int)) 0)
  | '.' :: l3 =>
    let fp := l3.takeWhile Char.isDigit
    if !(l3.drop fp.length).isEmpty then none
    else if ip.isEmpty && fp.isEmpty then none
    else some (mkPyFloat
      ((if neg then -1 else 1) * (digitsToNat (ip ++ fp) : Int)) fp.length)
  | _ => none

/-! ### Symbol translator (`src/tools/yfinance_fetch.py`) -/

/-- Table `EXCHANGE_SUFFIX`: IB exchange → Yahoo Finance suffix (insertion order of
the Python dict preserved). -/
def EXCHANGE_SUFFIX : List (String × String) :=
  [("HEX", ".HE"), ("SFB", ".ST"), ("OSE", ".OL"), ("TSE", ".TO"),
   ("TSEJ", ".T"), ("SBF", ".PA"), ("FWB", ".F"), ("FWB2", ".F"),
   ("IBIS", ".DE"), ("LSE", ".L"), ("SEHK", ".HK"), ("NYSE", ""),
   ("NASDAQ", ""), ("ARCA", ""), ("AMEX", "")]

/-- Table `SYMBOL_OVERRIDES`: (ib_symbol, exchange) → yahoo_symbol. All keys are
distinct, so modelling the Python dict as an association list looked up with
first-match is faithful. -/
def SYMBOL_OVERRIDES : List ((String × String) × String) :=
  [(("EQNRo", "OSE"), "EQNR.OL"),
   (("FROo", "OSE"), "FRO.OL"),
   (("NHYo", "OSE"), "NHY.OL"),
   (("YARo", "OSE"), "YAR.OL"),
   (("11", "SEHK"), "0011.HK"),
   (("669", "SEHK"), "0669.HK"),
   (("700", "SEHK"), "0700.HK"),
   (("916", "SEHK"), "0916.HK"),
   (("SGR.UN", "TSE"), "SGR-UN.TO"),
   (("AD.UN", "TSE"), "AD-UN.TO"),
   (("AP.UN", "TSE"), "AP-UN.TO"),
   (("RNR PRF", "NYSE"), "RNR-PF"),
   (("CIM PRA", "NYSE"), "CIM-PA"),
   (("CIM PRB", "NYSE"), "CIM-PB"),
   (("KEK", "HEX"), "KESKOB.HE"),
   (("FOT", "HEX"), "FORTUM.HE"),
   (("04Q", "HEX"), "NDA-FI.HE"),
   (("N2S", "HEX"), "MANTA.HE"),
   (("RPL", "HEX"), "UPM.HE"),
   (("OUTA", "HEX"), "OUT1V.HE"),
   (("OFK", "HEX"), "ORNBV.HE"),
   (("NEF", "HEX"), "NESTE.HE"),
   (("TLS", "HEX"), "TELIA1.HE"),
   (("2A41", "HEX"), "AKTIA.HE"),
   (("STEAVh", "HEX"), "STEAV.HE"),
   (("TOKMAh", "HEX"), "TOKMAN.HE"),
   (("TTEB", "HEX"), "TIETO.HE"),
   (("RAUA", "FWB"), "RAUTE.HE"),
   (("TELIA1", "FWB"), "TELIA1.HE"),
   (("BEW", "FWB2"), "BEW.F"),
   (("GKE", "FWB2"), "GKE.F"),
   (("CVZ", "FWB2"), "CVZ.F"),
   (("GOGL", "NASDAQ"), "GOGL"),
   (("PTMN", "NASDAQ"), "PTMN")]

/-- Dict lookup `SYMBOL_OVERRIDES[key]` (`key in SYMBOL_OVERRIDES` + indexing). -/
def lookupOverride (ib_symbol exchange : String) : Option String :=
  (SYMBOL_OVERRIDES.find? (fun p => p.1.1 == ib_symbol && p.1.2 == exchange)).map
    Prod.snd

/-- Dict access `EXCHANGE_SUFFIX.get(exchange, "")`. -/
def exchangeSuffix (exchange : String) : String :=
  ((EXCHANGE_SUFFIX.find? (fun p => p.1 == exchange)).map Prod.snd).getD ""

/-- The regex rewrite `^(.+)-PR([A-Z])$` → `\1-P\2` for US preferred shares.
The pattern anchors at both ends with a single trailing `[A-Z]`, so any match
has group 2 = the last character and group 1 = everything before the final
`-PR<letter>`; matching the reversed list captures exactly that. -/
def usPrefRewrite (l : List Char) : Option (List Char) :=
  match l.reverse with
  | c :: 'R' :: 'P' :: '-' :: restRev =>
    if ('A' ≤ c ∧ c ≤ 'Z') ∧ restRev ≠ [] then
      some (restRev.reverse ++ ['-', 'P', c])
    else none
  | _ => none

/-- The rule-based rewrite steps of `get_yahoo_symbol` (everything between the
override lookup and the final suffix append), on the character list. -/
def transformL (ib_symbol : List Char) (exchange : String) : List Char :=
  -- Clean up IB quirks: spaces become hyphens
  let symbol := replaceChar ' ' '-' ib_symbol
  -- Strip trailing "o" for Oslo stocks
  let symbol :=
    if exchange == "OSE" && symbol.getLast? == some 'o' && decide (1 < symbol.length)
    then symbol.dropLast else symbol
  -- Strip trailing "h" for Helsinki share classes
  let symbol :=
    if exchange == "HEX" && symbol.getLast? == some 'h' && decide (1 < symbol.length)
    then symbol.dropLast else symbol
  -- Hong Kong: zero-pad numeric codes to 4 digits
  let symbol :=
    if exchange == "SEHK" && isdigitL symbol then zfillL 4 symbol else symbol
  -- Toronto REITs: .UN -> -UN
  let symbol :=
    if exchange == "TSE" && containsSub ".UN".data symbol then
      replaceAll ".UN".data "-UN".data symbol
    else symbol
  -- US preferred shares: "-PRx" -> "-Px"
  let symbol :=
    if exchange == "NYSE" || exchange == "NASDAQ" || exchange == "AMEX" ||
        exchange == "ARCA" then
      match usPrefRewrite symbol with
      | some s => s
      | none => symbol
    else symbol
  symbol

/-- The symbol after the rule-based rewrite steps, as a string. -/
def rewritten (ib_symbol exchange : String) : String :=
  ⟨transformL ib_symbol.data exchange⟩

/-- Test `any(symbol.endswith(s) for s in EXCHANGE_SUFFIX.values() if s)`. -/
def endsWithKnownSuffix (l : List Char) : Bool :=
  ((EXCHANGE_SUFFIX.map Prod.snd).filter (fun s => s != "")).any
    (fun s => s.data.isSuffixOf l)

/-- Function `get_yahoo_symbol(ib_symbol, exchange)`: convert IB symbol + exchange to a
Yahoo Finance ticker. -/
def get_yahoo_symbol (ib_symbol exchange : String) : String :=
  -- Check overrides first
  match lookupOverride ib_symbol exchange with
  | some y => y
  | none =>
    let suffix := exchangeSuffix exchange
    let symbol := transformL ib_symbol.data exchange
    -- Some IB symbols already have an exchange suffix
    if containsSub ".".data symbol && endsWithKnownSuffix symbol then
      ⟨symbol⟩
    else
      ⟨symbol ++ suffix.data⟩

/-! ### Date patterns (`src/scripts/extract_lynx_pdfs.py`) -/

/-- Match of `\d{4}-\d{2}-\d{2}` anchored at the head of the list, returning
the matched 10-character token. -/
def matchISOat : List Char → Option (List Char)
  | a :: b :: c :: d :: '-' :: e :: f :: '-' :: g :: h :: _ =>
    if a.isDigit && b.isDigit && c.isDigit && d.isDigit && e.isDigit &&
        f.isDigit && g.isDigit && h.isDigit then
      some [a, b, c, d, '-', e, f, '-', g, h]
    else none
  | _ => none

/-- Match of `\d{2}/\d{2}/\d{4}` anchored at the head of the list. -/
def matchSlashAt : List Char → Option (List Char)
  | a :: b :: '/' :: c :: d :: '/' :: e :: f :: g :: h :: _ =>
    if a.isDigit && b.isDigit && c.isDigit && d.isDigit && e.isDigit &&
        f.isDigit && g.isDigit && h.isDigit then
      some [a, b, '/', c, d, '/', e, f, g, h]
    else none
  | _ => none

/-- Match of `\d{2}\.\d{2}\.\d{4}` anchored at the head of the list. -/
def matchDotAt : List Char → Option (List Char)
  | a :: b :: '.' :: c :: d :: '.' :: e :: f :: g :: h :: _ =>
    if a.isDigit && b.isDigit && c.isDigit && d.isDigit && e.isDigit &&
        f.isDigit && g.isDigit && h.isDigit then
      some [a, b, '.', c, d, '.', e, f, g, h]
    else none
  | _ => none

/-- Search `date_pattern.search(cell)` for the dividend-row pattern
`\d{4}-\d{2}-\d{2}|\d{2}/\d{2}/\d{4}|\d{2}\.\d{2}\.\d{4}`: leftmost match,
alternatives tried in pattern order at each position. Fuel-driven scan;
`fuel = length of the input` suffices as each step drops one character. -/
def dateSearchAux : List Char → Nat → Option (List Char)
  | _, 0 => none
  | [], _ => none
  | c :: rest, fuel + 1 =>
    match matchISOat (c :: rest) with
    | some d => some d
    | none =>
      match matchSlashAt (c :: rest) with
      | some d => some d
      | none =>
        match matchDotAt (c :: rest) with
        | some d => some d
        | none => dateSearchAux rest fuel

/-- Leftmost date token in a cell, if any. -/
def dateSearch (l : List Char) : Option (List Char) :=
  dateSearchAux l l.length

/-- Match `re.match(r"(\d{2})/(\d{2})/(\d{4})", date_str)`: anchored at the start
only (trailing characters are ignored), returning the three captured groups
(day, month, year). -/
def matchSlashDate : List Char → Option (List Char × List Char × List Char)
  | d1 :: d2 :: '/' :: m1 :: m2 :: '/' :: y1 :: y2 :: y3 :: y4 :: _ =>
    if d1.isDigit && d2.isDigit && m1.isDigit && m2.isDigit && y1.isDigit &&
        y2.isDigit && y3.isDigit && y4.isDigit then
      some ([d1, d2], [m1, m2], [y1, y2, y3, y4])
    else none
  | _ => none

/-- Match `re.match(r"(\d{2})\.(\d{2})\.(\d{4})", date_str)`: anchored at the start
only, returning the captured groups. -/
def matchDotDate : List Char → Option (List Char × List Char × List Char)
  | d1 :: d2 :: '.' :: m1 :: m2 :: '.' :: y1 :: y2 :: y3 :: y4 :: _ =>
    if d1.isDigit && d2.isDigit && m1.isDigit && m2.isDigit && y1.isDigit &&
        y2.isDigit && y3.isDigit && y4.isDigit then
      some ([d1, d2], [m1, m2], [y1, y2, y3, y4])
    else none
  | _ => none

/-- Function `normalize_date(date_str)`: normalize a date string to ISO format by
reordering the captured groups; anything matching neither pattern is
returned unchanged. -/
def normalize_date (date_str : String) : String :=
  match matchSlashDate date_str.data with
  | some (d, m, y) => ⟨y ++ '-' :: m ++ '-' :: d⟩
  | none =>
    match matchDotDate date_str.data with
    | some (d, m, y) => ⟨y ++ '-' :: m ++ '-' :: d⟩
    | none => date_str

/-! ### Amount patterns -/

/-- Character class `[\d,]`. -/
def isDigitOrComma (c : Char) : Bool :=
  c.isDigit || c == ','

/-- Fullmatch `amount_pattern.fullmatch` for `-?[\d,]+\.?\d*` (dividend-row path).
Maximal-munch is equivalent to the regex here: shortening the greedy
`[\d,]+` always leaves a digit or comma in a position the rest of the
pattern cannot absorb, so backtracking never rescues a failed maximal
attempt. -/
def numFullmatch (l : List Char) : Bool :=
  let l1 := match l with | '-' :: r => r | _ => l
  let run1 := l1.takeWhile isDigitOrComma
  !run1.isEmpty &&
    (match l1.drop run1.length with
     | [] => true
     | '.' :: frac => frac.all Char.isDigit
     | _ => false)

/-- One match of `-?[\d,]+\.?\d+` (9A-trade amount pattern) anchored at the
head of the list, returning (token, rest). The program applies it to
comma-stripped cells only, but commas are accepted in the class as in the
pattern. Greedy-with-backtracking reduces to: optional sign, a nonempty
digit/comma run, then either a `.`-and-nonempty-digit-run (so the final
`\d+` is satisfied after the dot) or, failing that, the bare run provided it
ends in a digit preceded by at least one more class character. -/
def matchAmt9aAt (l : List Char) : Option (List Char × List Char) :=
  let (sgn, l1) := match l with | '-' :: r => (['-'], r) | _ => ([], l)
  let run1 := l1.takeWhile isDigitOrComma
  if run1.isEmpty then none
  else
    let l2 := l1.drop run1.length
    match l2 with
    | '.' :: l3 =>
      let run2 := l3.takeWhile Char.isDigit
      if run2.isEmpty then
        -- `\.?` cannot take the dot (no digit follows); fall back to the
        -- bare run, which needs length ≥ 2 with a digit last.
        if 2 ≤ run1.length && (run1.getLast? |>.elim false Char.isDigit) then
          some (sgn ++ run1, l2)
        else none
      else some (sgn ++ run1 ++ '.' :: run2, l3.drop run2.length)
    | _ =>
      if 2 ≤ run1.length && (run1.getLast? |>.elim false Char.isDigit) then
        some (sgn ++ run1, l2)
      else none

/-- Scan `amount_pattern.finditer` for `-?[\d,]+\.?\d+`: non-overlapping leftmost
matches. Fuel = input length (every step consumes at least one character). -/
def findAllAmt9aAux : List Char → Nat → List (List Char)
  | _, 0 => []
  | [], _ => []
  | c :: rest, fuel + 1 =>
    match matchAmt9aAt (c :: rest) with
    | some (tok, after) => tok :: findAllAmt9aAux after fuel
    | none => findAllAmt9aAux rest fuel

/-- All `-?[\d,]+\.?\d+` matches in a cell. -/
def findAllAmt9a (l : List Char) : List (List Char) :=
  findAllAmt9aAux l l.length

/-- Scan `date_pattern.finditer` for `\d{4}-\d{2}-\d{2}` (9A-trade date pattern):
non-overlapping leftmost matches. -/
def findAllISOAux : List Char → Nat → List (List Char)
  | _, 0 => []
  | [], _ => []
  | c :: rest, fuel + 1 =>
    match matchISOat (c :: rest) with
    | some d => d :: findAllISOAux ((c :: rest).drop 10) fuel
    | none => findAllISOAux rest fuel

/-- All ISO-date matches in a cell. -/
def findAllISO (l : List Char) : List (List Char) :=
  findAllISOAux l l.length

/-! ### Dividend records and the row parser -/

/-- A record produced by the dividend extractor. The row path fills
`raw_amount` and leaves `currency` empty; the text path does the opposite.
Amounts are exact rationals standing for the Python floats. -/
structure DivRecord where
  symbol : String
  date : String
  amount : PyFloat
  raw_amount : Option PyFloat
  currency : Option String
  source : String
deriving DecidableEq, Repr

/-- Expression `str(cell).strip() if cell else ""` — `None` and the empty string are
falsy; pdfplumber cells are strings or `None`. -/
def cleanCell (cell : Option String) : String :=
  match cell with
  | some s => ⟨pyStrip s.data⟩
  | none => ""

/-- The `cleaned` list of `parse_dividend_row` / `parse_9a_trade_row`. -/
def cleanedRow (row : List (Option String)) : List String :=
  row.map cleanCell

/-- The `date_str` loop of `parse_dividend_row`: the leftmost date token of
the first cell containing one. -/
def rowDateStr (cleaned : List String) : Option String :=
  cleaned.findSome? (fun c => (dateSearch c.data).map (fun d => (⟨d⟩ : String)))

/-- The `amount_str` loop of `parse_dividend_row`: the first cell whose
comma-stripped text fullmatches the amount pattern, taken comma-stripped. -/
def rowAmountStr (cleaned : List String) : Option String :=
  cleaned.findSome? (fun c =>
    let t := stripCommas c.data
    if numFullmatch t then some (⟨t⟩ : String) else none)

/-- The symbol loop of `parse_dividend_row`: first non-empty, alphabetic-only
cell of at most 10 characters. -/
def rowSymbol (cleaned : List String) : Option String :=
  cleaned.find? (fun c => c != "" && decide (c.length ≤ 10) && isalphaL c.data)

/-- Function `parse_dividend_row(row)`. The `try/except` around the body can only be
triggered by non-string cell objects, which the `Option String` cell model
excludes; the inner `except ValueError` is the `pythonFloat?` failure case. -/
def parse_dividend_row (row : List (Option String)) : Option DivRecord :=
  let cleaned := cleanedRow row
  match rowDateStr cleaned, rowAmountStr cleaned with
  | some date_str, some amount_str =>
    match pythonFloat? amount_str.data with
    | some amount =>
      if (PyFloat.abs amount).isPos then
        some { symbol := (rowSymbol cleaned).getD "UNKNOWN"
               date := normalize_date date_str
               amount := PyFloat.abs amount
               raw_amount := some amount
               currency := none
               source := "lynx_pdf" }
      else none
    | none => none
  | _, _ => none

/-! ### The free-text dividend regex

`([A-Z]{1,10})\s+(\d{4}-\d{2}-\d{2})\s+.*?(?:dividend|payment).*?`
`([\d,]+\.?\d*)\s+([A-Z]{3})` with `re.IGNORECASE`, applied with `finditer`.
The pattern is hand-compiled below. `.` does not match a newline, so the two
lazy gaps stop at the first `'\n'`; `\s+` may cross newlines. For each greedy
piece, shortening it leaves a character the next pattern element cannot
match, so maximal munch is equivalent (arguments in the comments). -/

/-- Case-insensitive literal prefix test (for `dividend` / `payment`). -/
def ciStartsWith (pat l : List Char) : Bool :=
  ((l.take pat.length).map Char.toLower) == pat

/-- Greedy `([\d,]+\.?\d*)` anchored at the head, returning (token, rest).
`\.?` takes a dot whenever present; a trailing dot with no digits after it
is still part of the token (`\d*` may be empty). Backtracking to a shorter
token always leaves a class character where `\s+` must match, so it never
helps. -/
def g3At (l : List Char) : Option (List Char × List Char) :=
  let run1 := l.takeWhile isDigitOrComma
  if run1.isEmpty then none
  else
    let l1 := l.drop run1.length
    match l1 with
    | '.' :: l2 =>
      let run2 := l2.takeWhile Char.isDigit
      some (run1 ++ '.' :: run2, l2.drop run2.length)
    | _ => some (run1, l1)

/-- Piece `([\d,]+\.?\d*)\s+([A-Z]{3})` anchored at the head: amount token, at
least one whitespace, then exactly three letters (case-insensitive class).
Returns (amount, currency, rest). -/
def tryAmtCur (l : List Char) : Option (List Char × List Char × List Char) :=
  match g3At l with
  | none => none
  | some (amt, r1) =>
    let ws := r1.takeWhile isSpaceChar
    if ws.isEmpty then none
    else
      match r1.drop ws.length with
      | a :: b :: c :: rest =>
        if isAsciiLetter a && isAsciiLetter b && isAsciiLetter c then
          some (amt, [a, b, c], rest)
        else none
      | _ => none

/-- The lazy gap `.*?` before the amount: try the amount/currency tail at
each position, advancing one character at a time and never crossing a
newline. -/
def findAmtCurAux : List Char → Nat → Option (List Char × List Char × List Char)
  | _, 0 => none
  | [], _ => none
  | c :: rest, fuel + 1 =>
    match tryAmtCur (c :: rest) with
    | some r => some r
    | none => if c == '\n' then none else findAmtCurAux rest fuel

/-- Piece `.*?([\d,]+\.?\d*)\s+([A-Z]{3})` with the gap not crossing newlines. -/
def findAmtCur (l : List Char) : Option (List Char × List Char × List Char) :=
  findAmtCurAux l l.length

/-- Piece `(?:dividend|payment).*?<amount tail>` preceded by the lazy gap `.*?`:
scan (without crossing a newline) for a keyword occurrence whose tail
matches; on tail failure the gap extends past this occurrence, which is
exactly Python's backtracking order. -/
def kwScanAux : List Char → Nat → Option (List Char × List Char × List Char)
  | _, 0 => none
  | [], _ => none
  | c :: rest, fuel + 1 =>
    let l := c :: rest
    let klen : Option Nat :=
      if ciStartsWith "dividend".data l then some 8
      else if ciStartsWith "payment".data l then some 7
      else none
    match klen with
    | some k =>
      (match findAmtCur (l.drop k) with
       | some r => some r
       | none => if c == '\n' then none else kwScanAux rest fuel)
    | none => if c == '\n' then none else kwScanAux rest fuel

/-- Keyword-then-amount search starting a lazy gap at the head. -/
def kwScan (l : List Char) : Option (List Char × List Char × List Char) :=
  kwScanAux l l.length

/-- Piece `([A-Z]{1,10})\s+(\d{4}-\d{2}-\d{2})\s+` anchored at the head: a letter
run of length 1–10 (a longer run cannot match, since every shorter prefix is
followed by a letter where `\s+` must match), whitespace, the date, more
whitespace. Returns (symbol, date, rest). -/
def matchFront (l : List Char) :
    Option (List Char × List Char × List Char) :=
  let sym := l.takeWhile isAsciiLetter
  if sym.isEmpty || decide (10 < sym.length) then none
  else
    let l1 := l.drop sym.length
    let ws := l1.takeWhile isSpaceChar
    if ws.isEmpty then none
    else
      let l2 := l1.drop ws.length
      match matchISOat l2 with
      | none => none
      | some d =>
        let l3 := l2.drop 10
        let ws2 := l3.takeWhile isSpaceChar
        if ws2.isEmpty then none else some (sym, d, l3.drop ws2.length)

/-- One full match of the combined pattern anchored at the head, returning
the four groups and the rest of the input after the match. -/
def matchDivTextAt (l : List Char) :
    Option ((List Char × List Char × List Char × List Char) × List Char) :=
  match matchFront l with
  | none => none
  | some (sym, d, rest) =>
    match kwScan rest with
    | none => none
    | some (amt, cur, rest2) => some ((sym, d, amt, cur), rest2)

/-- Scan `pattern.finditer(text)`: leftmost, non-overlapping matches. Every match
consumes at least one character, so fuel = input length suffices. -/
def finditerDivAux : List Char → Nat →
    List (List Char × List Char × List Char × List Char)
  | _, 0 => []
  | [], _ => []
  | c :: rest, fuel + 1 =>
    match matchDivTextAt (c :: rest) with
    | some (m, after) => m :: finditerDivAux after fuel
    | none => finditerDivAux rest fuel

/-- All matches of the combined dividend-text pattern. -/
def finditerDiv (l : List Char) :
    List (List Char × List Char × List Char × List Char) :=
  finditerDivAux l l.length

/-- Function `parse_dividend_text(text)`: build a record from every regex match whose
comma-stripped amount parses to a strictly positive float. -/
def parse_dividend_text (text : String) : List DivRecord :=
  (finditerDiv text.data).filterMap (fun m =>
    match pythonFloat? (stripCommas m.2.2.1) with
    | none => none
    | some amount =>
      if amount.isPos then
        some { symbol := ⟨m.1⟩
               date := ⟨m.2.1⟩
               amount := amount
               raw_amount := none
               currency := some ⟨m.2.2.2⟩
               source := "lynx_pdf_text" }
      else none)

/-! ### Dividend extraction and dedup -/

/-- A page as the extractor sees it: its extracted tables (lists of rows of
optional cells) and its extracted plain text (`None` when absent). -/
structure Page where
  tables : List (List (List (Option String)))
  text : Option String

/-- The table loop of `extract_dividends_pdf`: rows shorter than 5 cells are
never handed to `parse_dividend_row`. -/
def tableRecords (table : List (List (Option String))) : List DivRecord :=
  table.filterMap (fun row =>
    if 5 ≤ row.length then parse_dividend_row row else none)

/-- Records of one page: table rows first, then the text fallback (skipped
for `None` or empty text, which are falsy). -/
def pageRecords (p : Page) : List DivRecord :=
  (p.tables.map tableRecords).flatten ++
    (match p.text with
     | some t => if t == "" then [] else parse_dividend_text t
     | none => [])

/-- All records gathered over the pages, before dedup. -/
def rawDividendRecords (pages : List Page) : List DivRecord :=
  (pages.map pageRecords).flatten

/-- The dedup key `(r.get("symbol",""), r.get("date",""), r.get("amount",""))`
— every record of both paths carries all three fields. -/
def divKey (r : DivRecord) : String × String × PyFloat :=
  (r.symbol, r.date, r.amount)

/-- The dedup loop of `extract_dividends_pdf`: keep the first record of each
key, tracking the `seen` set (modelled as a list of keys). -/
def dedupAux : List (String × String × PyFloat) → List DivRecord → List DivRecord
  | _, [] => []
  | seen, r :: rest =>
    if divKey r ∈ seen then dedupAux seen rest
    else r :: dedupAux (divKey r :: seen) rest

/-- Function `extract_dividends_pdf`: concatenate both paths over all pages, then
deduplicate by (symbol, date, amount). -/
def extract_dividends_pdf (pages : List Page) : List DivRecord :=
  dedupAux [] (rawDividendRecords pages)

/-! ### 9A trade rows -/

/-- A 9A trade record. -/
structure TradeRecord where
  symbol : String
  date : String
  amounts : List PyFloat
  source : String
deriving DecidableEq, Repr

/-- The `dates` list of `parse_9a_trade_row`: all ISO matches in all cells. -/
def tradeDates (cleaned : List String) : List String :=
  (cleaned.map (fun c => (findAllISO c.data).map
    (fun d => (⟨d⟩ : String)))).flatten

/-- The `amounts` list of `parse_9a_trade_row`: all amount-pattern matches in
all comma-stripped cells, parsed with `float` (failures skipped). -/
def tradeAmounts (cleaned : List String) : List PyFloat :=
  (cleaned.map (fun c =>
    (findAllAmt9a (stripCommas c.data)).filterMap pythonFloat?)).flatten

/-- Function `parse_9a_trade_row(row)`: needs ≥ 4 cells, at least one date and one
amount, and a first cell that is non-empty and at most 15 characters — there
is no placeholder symbol. -/
def parse_9a_trade_row (row : List (Option String)) : Option TradeRecord :=
  if row.length < 4 then none
  else
    let cleaned := cleanedRow row
    let dates := tradeDates cleaned
    let amounts := tradeAmounts cleaned
    if 1 ≤ dates.length ∧ 1 ≤ amounts.length then
      let c0 := cleaned.headD ""
      if c0 ≠ "" ∧ c0.length ≤ 15 then
        some { symbol := c0
               date := dates.headD ""
               amounts := amounts
               source := "9a_pdf" }
      else none
    else none

/-! ### Cost rows -/

/-- A cost record. -/
structure CostRecord where
  description : String
  amounts : List PyFloat
  source : String
deriving DecidableEq, Repr

/-- The per-cell amount loop of `extract_costs`:
`float(cell.replace(",", "").replace(" ", ""))` appended on success,
`ValueError` skipped — written as the same left-to-right loop. -/
def costAmounts : List String → List PyFloat
  | [] => []
  | c :: rest =>
    match pythonFloat? (stripCommasSpaces c.data) with
    | some v => v :: costAmounts rest
    | none => costAmounts rest

/-- Python `" | ".join(c for c in cleaned if c)`. -/
def costDescription (cleaned : List String) : String :=
  String.intercalate " | " (cleaned.filter (fun c => c != ""))

/-- The body of the `extract_costs` row loop (after the `len(row) >= 2`
gate): a record is produced exactly when some cell parsed as a number. -/
def parse_cost_row (row : List (Option String)) : Option CostRecord :=
  let cleaned := cleanedRow row
  let amounts := costAmounts cleaned
  if amounts ≠ [] then
    some { description := costDescription cleaned
           amounts := amounts
           source := "cost_pdf" }
  else none

/-- Function `extract_costs` over the extracted tables of all pages (each page's
tables, each table's rows with at least 2 cells). -/
def extract_costs (pages : List (List (List (List (Option String))))) :
    List CostRecord :=
  ((pages.map (fun tables =>
    (tables.map (fun table =>
      table.filterMap (fun row =>
        if 2 ≤ row.length then parse_cost_row row else none))).flatten)).flatten)

/-! ### Fetch routines (`src/tools/yfinance_fetch.py`)

The external provider (yfinance) is abstracted: every retrieval either raises
or returns data, captured by `Fetched`. The `try/except Exception` wrapper of
each routine maps `raised` to `None`; an empty series / falsy info dict also
maps to `None`. -/

/-- Outcome of one call into the external provider. -/
inductive Fetched (α : Type) where
  | raised
  | returned (val : α)

/-- Builtin `round(x, n)` on an exact decimal, rounding a tie away from zero; the
ties-to-even corner behaviour of the float `round` differs only on exact
ties, which the modelled data never hits. -/
def roundTo (n : Nat) (q : PyFloat) : PyFloat :=
  if q.exp ≤ n then q
  else
    let s : Int := (10 : Int) ^ (q.exp - n)
    let r := if 0 ≤ q.num then (q.num + s / 2) / s else -((-q.num + s / 2) / s)
    mkPyFloat r n

/-- Python `int(x)`: truncation toward zero. -/
def pyInt (q : PyFloat) : Int :=
  Int.tdiv q.num ((10 : Int) ^ q.exp)

/-- The provider data consumed by `fetch_dividends`: `ticker.dividends`
(dates already rendered `YYYY-MM-DD` as `strftime` does) together with
`ticker.info.get("currency")`. An empty `rows` models both `None` and an
empty series. -/
structure DivSeries where
  rows : List (String × PyFloat)
  currency : Option String

/-- One record written by `fetch_dividends`. -/
structure FetchedDividend where
  symbol : String
  yahoo_symbol : String
  exchange : String
  isin : Option String
  ex_date : String
  amount : PyFloat
  currency : String
deriving DecidableEq, Repr

/-- Function `fetch_dividends(yahoo_symbol, ib_symbol, exchange, isin=None)`: `None`
on a raised exception or an absent/empty dividend series, otherwise one
record per series entry. -/
def fetch_dividends (resp : Fetched DivSeries)
    (yahoo_symbol ib_symbol exchange : String) (isin : Option String) :
    Option (List FetchedDividend) :=
  match resp with
  | .raised => none
  | .returned divs =>
    if divs.rows.isEmpty then none
    else
      some (divs.rows.map (fun p =>
        { symbol := ib_symbol
          yahoo_symbol := yahoo_symbol
          exchange := exchange
          isin := isin
          ex_date := p.1
          amount := roundTo 6 p.2
          currency := divs.currency.getD "USD" }))

/-- One bar of the provider's price history (`open` is a Lean keyword, hence
`open_`). -/
structure HistBar where
  date : String
  open_ : PyFloat
  high : PyFloat
  low : PyFloat
  close : PyFloat
  volume : PyFloat

/-- The provider data consumed by `fetch_history`; empty `rows` models both
`None` and an empty frame. -/
structure HistSeries where
  rows : List HistBar

/-- One record written by `fetch_history`. -/
structure FetchedBar where
  symbol : String
  yahoo_symbol : String
  date : String
  open_ : PyFloat
  high : PyFloat
  low : PyFloat
  close : PyFloat
  volume : Int
deriving DecidableEq, Repr

/-- Function `fetch_history(yahoo_symbol, ib_symbol, exchange, period="max")`. -/
def fetch_history (resp : Fetched HistSeries)
    (yahoo_symbol ib_symbol exchange period : String) :
    Option (List FetchedBar) :=
  match resp with
  | .raised => none
  | .returned hist =>
    if hist.rows.isEmpty then none
    else
      some (hist.rows.map (fun r =>
        { symbol := ib_symbol
          yahoo_symbol := yahoo_symbol
          date := r.date
          open_ := roundTo 4 r.open_
          high := roundTo 4 r.high
          low := roundTo 4 r.low
          close := roundTo 4 r.close
          volume := pyInt r.volume }))

/-- Python `a or b` for optional strings (`None` and `""` are falsy). -/
def pyOrStr (a b : Option String) : Option String :=
  match a with
  | some s => if s == "" then b else some s
  | none => b

/-- Python `a or b` for optional floats (`None` and `0.0` are falsy). -/
def pyOrFloat (a b : Option PyFloat) : Option PyFloat :=
  match a with
  | some q => if q.num == 0 then b else some q
  | none => b

/-- The fields of `ticker.info` that `fetch_profile` reads; a missing key
(`info.get` returning `None`) is `none`. A falsy whole dict is modelled one
level up, in `fetch_profile`'s argument. -/
structure TickerInfo where
  longName : Option String
  shortName : Option String
  sector : Option String
  industry : Option String
  country : Option String
  currency : Option String
  marketCap : Option PyFloat
  dividendRate : Option PyFloat
  dividendYield : Option PyFloat
  exDividendDate : Option Int
  payoutRatio : Option PyFloat
  trailingPE : Option PyFloat
  forwardPE : Option PyFloat
  currentPrice : Option PyFloat
  regularMarketPrice : Option PyFloat
  fiftyTwoWeekHigh : Option PyFloat
  fiftyTwoWeekLow : Option PyFloat

/-- The record written by `fetch_profile`. -/
structure FetchedProfile where
  symbol : String
  yahoo_symbol : String
  exchange : String
  isin : Option String
  name : Option String
  sector : Option String
  industry : Option String
  country : Option String
  currency : Option String
  market_cap : Option PyFloat
  dividend_rate : Option PyFloat
  dividend_yield : Option PyFloat
  ex_dividend_date : Option Int
  payout_ratio : Option PyFloat
  trailing_pe : Option PyFloat
  forward_pe : Option PyFloat
  price : Option PyFloat
  fifty_two_week_high : Option PyFloat
  fifty_two_week_low : Option PyFloat

/-- Function `fetch_profile(yahoo_symbol, ib_symbol, exchange, isin=None)`: `None` on
a raised exception or a falsy info dict (`if not info`), otherwise the field
mapping, with the two `or`-chains of the source. -/
def fetch_profile (resp : Fetched (Option TickerInfo))
    (yahoo_symbol ib_symbol exchange : String) (isin : Option String) :
    Option FetchedProfile :=
  match resp with
  | .raised => none
  | .returned none => none
  | .returned (some info) =>
    some { symbol := ib_symbol
           yahoo_symbol := yahoo_symbol
           exchange := exchange
           isin := isin
           name := pyOrStr info.longName info.shortName
           sector := info.sector
           industry := info.industry
           country := info.country
           currency := info.currency
           market_cap := info.marketCap
           dividend_rate := info.dividendRate
           dividend_yield := info.dividendYield
           ex_dividend_date := info.exDividendDate
           payout_ratio := info.payoutRatio
           trailing_pe := info.trailingPE
           forward_pe := info.forwardPE
           price := pyOrFloat info.currentPrice info.regularMarketPrice
           fifty_two_week_high := info.fiftyTwoWeekHigh
           fifty_two_week_low := info.fiftyTwoWeekLow }

/-! ### Command dispatch -/

/-- One row of `get_all_symbols_from_db()`. -/
structure DbEntry where
  symbol : String
  exchange : String
  isin : Option String

/-- Expression `yahoo.replace("/", "_")` used to build the output filename. -/
def safeName (yahoo : String) : String :=
  ⟨replaceChar '/' '_' yahoo.data⟩

/-- The batch loop of `cmd_dividends` in its `--all` form, with the provider
abstracted as a map from the requested Yahoo symbol to an outcome. Each DB
entry is translated with `get_yahoo_symbol`, fetched, and written only when
records came back; the result lists the (filename, records) pairs written. -/
def cmd_dividends_all (db : List DbEntry)
    (provider : String → Fetched DivSeries) :
    List (String × List FetchedDividend) :=
  db.filterMap (fun e =>
    let yahoo := get_yahoo_symbol e.symbol e.exchange
    match fetch_dividends (provider yahoo) yahoo e.symbol e.exchange e.isin with
    | some records => some (safeName yahoo, records)
    | none => none)

/-- One fetch-routine invocation: the Yahoo symbol actually requested from
the provider, and the accompanying ib-symbol/exchange arguments. -/
structure FetchCall where
  yahoo_symbol : String
  ib_symbol : String
  exchange : String
deriving DecidableEq, Repr

/-- The `fetch_dividends` calls `cmd_dividends(args)` makes, as a function of
the CLI symbol argument: `--all`, `all` and `None` select the DB batch
(each entry translated with `get_yahoo_symbol`); any other value is passed
straight through — `yahoo = args.symbol` with no translation, ib-symbol the
same string and exchange `""`. -/
def cmd_dividends_calls (symbol_arg : Option String) (db : List DbEntry) :
    List FetchCall :=
  if symbol_arg == some "--all" || symbol_arg == some "all" ||
      symbol_arg == none then
    db.map (fun e =>
      { yahoo_symbol := get_yahoo_symbol e.symbol e.exchange
        ib_symbol := e.symbol
        exchange := e.exchange })
  else
    match symbol_arg with
    | some s => [{ yahoo_symbol := s, ib_symbol := s, exchange := "" }]
    | none => []

/-- The single `fetch_history` call `cmd_history(args)` makes:
`yahoo = args.symbol`, no translation. -/
def cmd_history_calls (symbol : String) : List FetchCall :=
  [{ yahoo_symbol := symbol, ib_symbol := symbol, exchange := "" }]

/-- The single `fetch_profile` call `cmd_profile(args)` makes:
`yahoo = args.symbol`, no translation. -/
def cmd_profile_calls (symbol : String) : List FetchCall :=
  [{ yahoo_symbol := symbol, ib_symbol := symbol, exchange := "" }]

/-! ### Concrete inputs used by the witnesses -/

/-- A page holding the same dividend both as a table row and in the plain
text, so the two extraction paths produce records with an identical
(symbol, date, amount) key. -/
def dupPage : Page :=
  { tables := [[[some "AAPL", some "2024-01-15", some "Cash Dividend",
                 some "1.50", some "USD"]]]
    text := some "AAPL 2024-01-15 Cash Dividend 1.50 USD" }

/-- The record the text path produces on `dupPage`. -/
def dupTextRec : DivRecord :=
  { symbol := "AAPL", date := "2024-01-15", amount := mkPyFloat 15 1
    raw_amount := none, currency := some "USD", source := "lynx_pdf_text" }

/-! ## Shared helper lemmas -/

/-- A successful override lookup comes from an entry of the table. -/
theorem lookupOverride_mem {s e v : String}
    (h : lookupOverride s e = some v) : ((s, e), v) ∈ SYMBOL_OVERRIDES := by
  unfold lookupOverride at h
  cases hf : SYMBOL_OVERRIDES.find? (fun p => p.1.1 == s && p.1.2 == e) with
  | none => rw [hf] at h; simp at h
  | some p =>
    rw [hf] at h
    simp only [Option.map_some'] at h
    have hmem := List.mem_of_find?_eq_some hf
    have hpred := List.find?_some hf
    simp only [Bool.and_eq_true, beq_iff_eq] at hpred
    obtain ⟨p1, p2⟩ := p
    obtain ⟨pa, pb⟩ := p1
    simp only at hpred h
    obtain ⟨h1, h2⟩ := hpred
    subst h1; subst h2
    cases h
    exact hmem

/-- Every non-empty suffix value of the exchange table contains a dot. -/
theorem suffix_values_have_dot :
    ∀ s ∈ (EXCHANGE_SUFFIX.map Prod.snd).filter (fun s => s != ""),
      '.' ∈ s.data := by decide

/-- A single-character pattern is a substring whenever the character occurs. -/
theorem containsSub_singleton_of_mem {c : Char} {l : List Char}
    (h : c ∈ l) : containsSub [c] l = true := by
  induction l with
  | nil => cases h
  | cons a rest ih =>
    rcases List.mem_cons.mp h with h | h
    · subst h
      simp [containsSub, List.isPrefixOf]
    · simp [containsSub, ih h]

/-- When the rewritten symbol ends in a known non-empty suffix, it contains
a dot (so the `"." in symbol` half of the source's condition is implied). -/
theorem containsDot_of_endsWithKnownSuffix {l : List Char}
    (h : endsWithKnownSuffix l = true) : containsSub ".".data l = true := by
  unfold endsWithKnownSuffix at h
  obtain ⟨s, hs, hsuf⟩ := List.any_eq_true.mp h
  have hsub : s.data ⊆ l :=
    (List.isSuffixOf_iff_suffix.mp hsuf).subset
  have hdot : '.' ∈ s.data := suffix_values_have_dot s hs
  exact containsSub_singleton_of_mem (hsub hdot)

/-- No override key, once pushed through the rule-based rewrite steps, ends
in a known suffix (checked by evaluation over the whole table). -/
theorem overrides_transform_no_suffix :
    ∀ p ∈ SYMBOL_OVERRIDES,
      endsWithKnownSuffix (transformL p.1.1.data p.1.2) = false := by decide

/-! ## Claims -/

/-- C1: for every (broker_symbol, exchange) pair that is a key of the static
override table, `get_yahoo_symbol` returns exactly the table's value for
that key, regardless of what the rule-based transformation path would
compute. -/
theorem C1_overrides_win :
    ∀ p ∈ SYMBOL_OVERRIDES, get_yahoo_symbol p.1.1 p.1.2 = p.2 := by decide

theorem C1_overrides_win_witness :
    ((("KEK", "HEX"), "KESKOB.HE") ∈ SYMBOL_OVERRIDES) ∧
      get_yahoo_symbol "KEK" "HEX" = "KESKOB.HE" :=
  ⟨by decide, C1_overrides_win (("KEK", "HEX"), "KESKOB.HE") (by decide)⟩

/-- C2: whenever the symbol after the rewrite steps already ends with a
non-empty suffix of the exchange-suffix table, `get_yahoo_symbol` returns it
unchanged — no second suffix is appended. (For override keys the hypothesis
never holds, so the override branch cannot interfere.) -/
theorem C2_no_double_suffix (sym exch : String)
    (h : endsWithKnownSuffix (transformL sym.data exch) = true) :
    get_yahoo_symbol sym exch = rewritten sym exch := by
  unfold get_yahoo_symbol
  cases hov : lookupOverride sym exch with
  | none =>
    have hdot := containsDot_of_endsWithKnownSuffix h
    simp only [rewritten, hdot, h, Bool.and_self, if_pos]
  | some y =>
    exfalso
    have hmem := lookupOverride_mem hov
    have hfalse := overrides_transform_no_suffix ((sym, exch), y) hmem
    simp only at hfalse
    rw [h] at hfalse
    cases hfalse

theorem C2_no_double_suffix_witness :
    endsWithKnownSuffix (transformL "8750.T".data "TSEJ") = true ∧
      get_yahoo_symbol "8750.T" "TSEJ" = rewritten "8750.T" "TSEJ" ∧
      rewritten "8750.T" "TSEJ" = "8750.T" :=
  ⟨by decide, C2_no_double_suffix "8750.T" "TSEJ" (by decide), by decide⟩

/-- C3: `normalize_date` reorders the captured groups of a day-first slash
date and of a day-first dot date into ISO, and returns any string matching
neither anchored pattern — in particular an already-ISO date — unchanged. -/
theorem C3_normalize_date :
    normalize_date "31/01/2024" = "2024-01-31" ∧
    normalize_date "31.01.2024" = "2024-01-31" ∧
    (∀ s : String, matchSlashDate s.data = none → matchDotDate s.data = none →
      normalize_date s = s) ∧
    matchSlashDate "2024-01-31".data = none ∧
    matchDotDate "2024-01-31".data = none ∧
    normalize_date "2024-01-31" = "2024-01-31" := by
  refine ⟨by decide, by decide, ?_, by decide, by decide, by decide⟩
  intro s h1 h2
  unfold normalize_date
  rw [h1, h2]

theorem C3_normalize_date_witness :
    matchSlashDate "2024-01-31x".data = none ∧
    matchDotDate "2024-01-31x".data = none ∧
    normalize_date "2024-01-31x" = "2024-01-31x" :=
  ⟨by decide, by decide,
    C3_normalize_date.2.2.1 "2024-01-31x" (by decide) (by decide)⟩

/-- C9: a table row with fewer than 5 cells never produces a dividend record
via the row path, whatever its contents — `extract_dividends_pdf` only hands
rows of length at least 5 to `parse_dividend_row`. -/
theorem C9_short_rows_skipped (table : List (List (Option String)))
    (row : List (Option String)) (h : row.length < 5) :
    tableRecords (row :: table) = tableRecords table := by
  unfold tableRecords
  rw [List.filterMap_cons]
  have h5 : ¬ 5 ≤ row.length := by omega
  simp [h5]

theorem C9_short_rows_skipped_witness :
    (parse_dividend_row
        [some "AAPL", some "2024-01-15", some "Dividend", some "1.50"]).isSome
      = true ∧
    ([some "AAPL", some "2024-01-15", some "Dividend", some "1.50"] :
        List (Option String)).length < 5 ∧
    tableRecords [[some "AAPL", some "2024-01-15", some "Dividend",
        some "1.50"]] = tableRecords [] :=
  ⟨by decide, by decide,
    C9_short_rows_skipped []
      [some "AAPL", some "2024-01-15", some "Dividend", some "1.50"]
      (by decide)⟩

/-- C10: a 9A tax-trade row produces a record exactly when it has at least
4 cells, at least one date and one numeric amount were found, and the first
cell is non-empty and at most 15 characters; in particular a bad first cell
yields no record at all — there is no `UNKNOWN`-style fallback. -/
theorem C10_9a_first_cell_gate (row : List (Option String)) :
    (parse_9a_trade_row row).isSome = true ↔
      (4 ≤ row.length ∧ tradeDates (cleanedRow row) ≠ [] ∧
       tradeAmounts (cleanedRow row) ≠ [] ∧
       (cleanedRow row).headD "" ≠ "" ∧
       ((cleanedRow row).headD "").length ≤ 15) := by
  have hd : (1 ≤ (tradeDates (cleanedRow row)).length) ↔
      tradeDates (cleanedRow row) ≠ [] := List.length_pos
  have ha : (1 ≤ (tradeAmounts (cleanedRow row)).length) ↔
      tradeAmounts (cleanedRow row) ≠ [] := List.length_pos
  simp only [parse_9a_trade_row]
  by_cases h4 : row.length < 4
  · rw [if_pos h4]
    simp only [Option.isSome_none, Bool.false_eq_true, false_iff]
    intro hc
    omega
  · rw [if_neg h4]
    by_cases hcnt : 1 ≤ (tradeDates (cleanedRow row)).length ∧
        1 ≤ (tradeAmounts (cleanedRow row)).length
    · rw [if_pos hcnt]
      by_cases hc0 : (cleanedRow row).headD "" ≠ "" ∧
          ((cleanedRow row).headD "").length ≤ 15
      · rw [if_pos hc0]
        simp only [Option.isSome_some, true_iff]
        exact ⟨by omega, hd.mp hcnt.1, ha.mp hcnt.2, hc0.1, hc0.2⟩
      · rw [if_neg hc0]
        simp only [Option.isSome_none, Bool.false_eq_true, false_iff]
        intro hc
        exact hc0 ⟨hc.2.2.2.1, hc.2.2.2.2⟩
    · rw [if_neg hcnt]
      simp only [Option.isSome_none, Bool.false_eq_true, false_iff]
      intro hc
      exact hcnt ⟨hd.mpr hc.2.1, ha.mpr hc.2.2.1⟩

theorem C10_9a_first_cell_gate_witness :
    (parse_9a_trade_row
        [some "AAPL", some "2024-01-15", some "x", some "12.34"]).isSome
      = true :=
  (C10_9a_first_cell_gate
      [some "AAPL", some "2024-01-15", some "x", some "12.34"]).mpr
    (by decide)

/-- C4: the row path accepts a cell as the amount only when the whole
comma-stripped cell fullmatches the numeric pattern — so `"1,234.56"` yields
1234.56 and `"12a"` yields no amount — while the free-text path only needs a
numeric substring somewhere in the line, so a line containing
`"12a 34.50 USD"` still produces a record (amount 34.50). -/
theorem C4_row_fullmatch_text_partial :
    (∀ (cleaned : List String) (a : String), rowAmountStr cleaned = some a →
      ∃ c ∈ cleaned, a.data = stripCommas c.data ∧ numFullmatch a.data = true) ∧
    parse_dividend_row [some "AAPL", some "2024-01-15", some "Dividend",
        some "1,234.56", some "USD"] =
      some { symbol := "AAPL", date := "2024-01-15",
             amount := mkPyFloat 123456 2,
             raw_amount := some (mkPyFloat 123456 2),
             currency := none, source := "lynx_pdf" } ∧
    numFullmatch (stripCommas "12a".data) = false ∧
    parse_dividend_row [some "AAPL", some "2024-01-15", some "Dividend",
        some "12a", some "USD"] = none ∧
    parse_dividend_text "XYZ 2024-02-01 Cash Dividend 12a 34.50 USD" =
      [{ symbol := "XYZ", date := "2024-02-01", amount := mkPyFloat 345 1,
         raw_amount := none, currency := some "USD",
         source := "lynx_pdf_text" }] := by
  refine ⟨?_, by decide, by decide, by decide, by decide⟩
  intro cleaned
  induction cleaned with
  | nil => intro a h; simp [rowAmountStr] at h
  | cons c rest ih =>
    intro a h
    unfold rowAmountStr at h
    rw [List.findSome?_cons] at h
    by_cases hm : numFullmatch (stripCommas c.data) = true
    · simp only [hm] at h
      have ha : a = ⟨stripCommas c.data⟩ := (Option.some.inj h).symm
      subst ha
      exact ⟨c, List.mem_cons_self c rest, rfl, hm⟩
    · simp only [Bool.not_eq_true] at hm
      simp only [hm] at h
      obtain ⟨c', hc', hd, hf⟩ := ih a h
      exact ⟨c', List.mem_cons_of_mem c hc', hd, hf⟩

theorem C4_row_fullmatch_text_partial_witness :
    rowAmountStr ["AAPL", "1,234.56"] = some "1234.56" ∧
    ∃ c ∈ ["AAPL", "1,234.56"],
      "1234.56".data = stripCommas c.data ∧ numFullmatch "1234.56".data = true :=
  ⟨by decide,
    C4_row_fullmatch_text_partial.1 ["AAPL", "1,234.56"] "1234.56" (by decide)⟩

/-- The dedup loop emits a pairwise-key-distinct list, none of whose keys
were already seen. -/
theorem dedupAux_pairwise_fresh (rs : List DivRecord) :
    ∀ seen : List (String × String × PyFloat),
      (dedupAux seen rs).Pairwise (fun a b => divKey a ≠ divKey b) ∧
      ∀ r ∈ dedupAux seen rs, divKey r ∉ seen := by
  induction rs with
  | nil => intro seen; simp [dedupAux]
  | cons r rest ih =>
    intro seen
    by_cases h : divKey r ∈ seen
    · simpa only [dedupAux, if_pos h] using ih seen
    · obtain ⟨pw, fresh⟩ := ih (divKey r :: seen)
      simp only [dedupAux, if_neg h]
      refine ⟨List.Pairwise.cons ?_ pw, ?_⟩
      · intro b hb heq
        exact (fresh b hb) (heq ▸ List.mem_cons_self _ _)
      · intro x hx
        rcases List.mem_cons.mp hx with hx | hx
        · subst hx; exact h
        · intro hxs
          exact (fresh x hx) (List.mem_cons_of_mem _ hxs)

/-- Every key of the input survives into the dedup output (carried by its
first occurrence). -/
theorem dedupAux_covers (rs : List DivRecord) :
    ∀ (seen : List (String × String × PyFloat)) (r : DivRecord),
      r ∈ rs → divKey r ∉ seen →
      ∃ u ∈ dedupAux seen rs, divKey u = divKey r := by
  induction rs with
  | nil => intro seen r hr; cases hr
  | cons a rest ih =>
    intro seen r hr hs
    rcases List.mem_cons.mp hr with hr | hr
    · subst hr
      rw [dedupAux, if_neg hs]
      exact ⟨r, List.mem_cons_self _ _, rfl⟩
    · by_cases ha : divKey a ∈ seen
      · rw [dedupAux, if_pos ha]
        exact ih seen r hr hs
      · rw [dedupAux, if_neg ha]
        by_cases heq : divKey r = divKey a
        · exact ⟨a, List.mem_cons_self _ _, heq.symm⟩
        · have : divKey r ∉ divKey a :: seen := by
            intro hmem
            rcases List.mem_cons.mp hmem with hmem | hmem
            · exact heq hmem
            · exact hs hmem
          obtain ⟨u, hu, hk⟩ := ih (divKey a :: seen) r hr this
          exact ⟨u, List.mem_cons_of_mem _ hu, hk⟩

/-- C5: the dividend extraction output never holds two records with the same
(symbol, date, amount) key, and every record gathered by either path (table
or text) is represented in the output by a record with its key — duplicate
triples collapse to one. -/
theorem C5_dedup_by_triple (pages : List Page) :
    (extract_dividends_pdf pages).Pairwise (fun a b => divKey a ≠ divKey b) ∧
    ∀ r ∈ rawDividendRecords pages,
      ∃ u ∈ extract_dividends_pdf pages, divKey u = divKey r := by
  constructor
  · exact (dedupAux_pairwise_fresh (rawDividendRecords pages) []).1
  · intro r hr
    exact dedupAux_covers (rawDividendRecords pages) [] r hr (by simp)

theorem C5_dedup_by_triple_witness :
    (dupTextRec ∈ rawDividendRecords [dupPage]) ∧
    (extract_dividends_pdf [dupPage]).length = 1 ∧
    ∃ u ∈ extract_dividends_pdf [dupPage], divKey u = divKey dupTextRec :=
  ⟨by decide, by decide,
    (C5_dedup_by_triple [dupPage]).2 dupTextRec (by decide)⟩

/-- The cost-row amount loop is the filterMap of the cell parser. -/
theorem costAmounts_eq_filterMap (l : List String) :
    costAmounts l =
      l.filterMap (fun c => pythonFloat? (stripCommasSpaces c.data)) := by
  induction l with
  | nil => rfl
  | cons c rest ih =>
    unfold costAmounts
    cases hp : pythonFloat? (stripCommasSpaces c.data) with
    | none => simp [List.filterMap_cons, hp, ih]
    | some v => simp [List.filterMap_cons, hp, ih]

/-- C6 counterexample: on the 2-cell row `["Fee", "12.50"]` the record's
description is `"Fee | 12.50"` — the successfully parsed cell is retained
too — whereas the claim's description (the failing cells joined with
`" | "`) would be `"Fee"`. -/
theorem C6_description_cex :
    (parse_cost_row [some "Fee", some "12.50"]).map CostRecord.description =
      some "Fee | 12.50" ∧
    ((cleanedRow [some "Fee", some "12.50"]).filter
        (fun c => (pythonFloat? (stripCommasSpaces c.data)).isNone)) = ["Fee"] ∧
    "Fee | 12.50" ≠ "Fee" :=
  ⟨by decide, by decide, by decide⟩

/-- C6 amended: for every table row with at least 2 cells, the cells that
fail decimal parsing (after stripping commas and spaces) are excluded from
the amounts list; the description is all *non-empty* cells — parsed or
failed alike — joined with `" | "`; and a record is produced iff at least
one cell parsed as a number. -/
theorem C6_cost_row_amended (row : List (Option String))
    (h : 2 ≤ row.length) :
    (∀ rec, parse_cost_row row = some rec →
      rec.amounts = (cleanedRow row).filterMap
          (fun c => pythonFloat? (stripCommasSpaces c.data)) ∧
      rec.description = String.intercalate " | "
          ((cleanedRow row).filter (fun c => c != ""))) ∧
    ((parse_cost_row row).isSome = true ↔
      (cleanedRow row).filterMap
          (fun c => pythonFloat? (stripCommasSpaces c.data)) ≠ []) := by
  simp only [parse_cost_row]
  rw [costAmounts_eq_filterMap]
  by_cases ham :
      (cleanedRow row).filterMap
        (fun c => pythonFloat? (stripCommasSpaces c.data)) ≠ []
  · rw [if_pos ham]
    refine ⟨?_, by simp [ham]⟩
    intro rec hrec
    cases hrec
    exact ⟨rfl, rfl⟩
  · rw [if_neg ham]
    refine ⟨?_, by simp [ham]⟩
    intro rec hrec
    cases hrec

theorem C6_cost_row_amended_witness :
    (2 ≤ ([some "Fee", some "12.50"] : List (Option String)).length) ∧
    ((parse_cost_row [some "Fee", some "12.50"]).isSome = true ↔
      (cleanedRow [some "Fee", some "12.50"]).filterMap
          (fun c => pythonFloat? (stripCommasSpaces c.data)) ≠ []) :=
  ⟨by decide, (C6_cost_row_amended [some "Fee", some "12.50"] (by decide)).2⟩

/-- C7: each of the three fetch routines returns `None` — a no-result value,
not an error — both when the provider reports no data and when the retrieval
raises; and in the batch loop over many symbols such a per-symbol failure
contributes nothing to the output while the rest of the batch is processed
exactly as if the failing entry were absent. -/
theorem C7_fetch_failures_no_result :
    (∀ y i e isin, fetch_dividends .raised y i e isin = none) ∧
    (∀ s y i e isin, s.rows = [] →
      fetch_dividends (.returned s) y i e isin = none) ∧
    (∀ y i e p, fetch_history .raised y i e p = none) ∧
    (∀ s y i e p, s.rows = [] → fetch_history (.returned s) y i e p = none) ∧
    (∀ y i e isin, fetch_profile .raised y i e isin = none) ∧
    (∀ y i e isin, fetch_profile (.returned none) y i e isin = none) ∧
    (∀ (db1 db2 : List DbEntry) (e : DbEntry)
        (provider : String → Fetched DivSeries),
      fetch_dividends (provider (get_yahoo_symbol e.symbol e.exchange))
          (get_yahoo_symbol e.symbol e.exchange) e.symbol e.exchange e.isin
        = none →
      cmd_dividends_all (db1 ++ e :: db2) provider =
        cmd_dividends_all (db1 ++ db2) provider) := by
  refine ⟨fun _ _ _ _ => rfl, ?_, fun _ _ _ _ => rfl, ?_,
    fun _ _ _ _ => rfl, fun _ _ _ _ => rfl, ?_⟩
  · intro s y i e isin hs
    simp [fetch_dividends, hs]
  · intro s y i e p hs
    simp [fetch_history, hs]
  · intro db1 db2 e provider h
    simp only [cmd_dividends_all, List.filterMap_append, List.filterMap_cons, h]

theorem C7_fetch_failures_no_result_witness :
    cmd_dividends_all [{ symbol := "AAPL", exchange := "NASDAQ", isin := none }]
        (fun _ => .raised) =
      cmd_dividends_all [] (fun _ => .raised) :=
  C7_fetch_failures_no_result.2.2.2.2.2.2 [] []
    { symbol := "AAPL", exchange := "NASDAQ", isin := none }
    (fun _ => .raised) rfl

/-- No override entry maps the broker symbol "RNR PRA" to itself. -/
theorem overrides_rnr_pra :
    ∀ p ∈ SYMBOL_OVERRIDES,
      ¬(p.1.1 = "RNR PRA" ∧ p.2 = "RNR PRA") := by decide

/-- C8 counterexample: the single-symbol history command requests exactly the
raw CLI argument `"RNR PRA"` from the provider, yet the symbol translator —
under every possible exchange — never maps `"RNR PRA"` to itself, so the
requested symbol cannot be a translator output: the claim that every
invocation translates the given symbol before the request is false. -/
theorem C8_single_symbol_not_translated_cex :
    cmd_history_calls "RNR PRA" =
      [{ yahoo_symbol := "RNR PRA", ib_symbol := "RNR PRA", exchange := "" }] ∧
    ∀ exch : String, get_yahoo_symbol "RNR PRA" exch ≠ "RNR PRA" := by
  refine ⟨rfl, ?_⟩
  intro exch h
  by_cases e1 : exch = "OSE"
  · subst e1; exact absurd h (by decide)
  by_cases e2 : exch = "HEX"
  · subst e2; exact absurd h (by decide)
  by_cases e3 : exch = "SEHK"
  · subst e3; exact absurd h (by decide)
  by_cases e4 : exch = "TSE"
  · subst e4; exact absurd h (by decide)
  by_cases e5 : exch = "NYSE"
  · subst e5; exact absurd h (by decide)
  by_cases e6 : exch = "NASDAQ"
  · subst e6; exact absurd h (by decide)
  by_cases e7 : exch = "AMEX"
  · subst e7; exact absurd h (by decide)
  by_cases e8 : exch = "ARCA"
  · subst e8; exact absurd h (by decide)
  have b1 : (exch == "OSE") = false := beq_eq_false_iff_ne.mpr e1
  have b2 : (exch == "HEX") = false := beq_eq_false_iff_ne.mpr e2
  have b3 : (exch == "SEHK") = false := beq_eq_false_iff_ne.mpr e3
  have b4 : (exch == "TSE") = false := beq_eq_false_iff_ne.mpr e4
  have b5 : (exch == "NYSE") = false := beq_eq_false_iff_ne.mpr e5
  have b6 : (exch == "NASDAQ") = false := beq_eq_false_iff_ne.mpr e6
  have b7 : (exch == "AMEX") = false := beq_eq_false_iff_ne.mpr e7
  have b8 : (exch == "ARCA") = false := beq_eq_false_iff_ne.mpr e8
  have ht : transformL "RNR PRA".data exch = "RNR-PRA".data := by
    simp only [transformL, b1, b2, b3, b4, b5, b6, b7, b8, Bool.false_and,
      Bool.false_or, Bool.or_self, Bool.false_eq_true, if_false]
    decide
  unfold get_yahoo_symbol at h
  cases hov : lookupOverride "RNR PRA" exch with
  | some y =>
    rw [hov] at h
    exact overrides_rnr_pra (("RNR PRA", exch), y) (lookupOverride_mem hov)
      ⟨rfl, h⟩
  | none =>
    rw [hov] at h
    have hcond : containsSub ".".data "RNR-PRA".data = false := by decide
    simp only [ht, hcond, Bool.false_and, Bool.false_eq_true, if_false] at h
    have hdata : "RNR-PRA".data ++ (exchangeSuffix exch).data =
        "RNR PRA".data := congrArg String.data h
    have h3 : ("RNR-PRA".data ++ (exchangeSuffix exch).data)[3]? = some '-' := by
      rw [List.getElem?_append_left (by decide)]
      decide
    rw [hdata] at h3
    exact absurd h3 (by decide)

/-- C8 amended: only the batch form of the dividends subcommand (`--all`,
`all`, or an omitted symbol) maps each stored symbol through the translator
before fetching; the single-symbol forms of dividends, history, and profile
pass the given CLI symbol to the provider unchanged (they expect an
already-translated Yahoo symbol). -/
theorem C8_translation_amended (db : List DbEntry) (s : String)
    (h1 : s ≠ "--all") (h2 : s ≠ "all") :
    cmd_dividends_calls (some s) db =
      [{ yahoo_symbol := s, ib_symbol := s, exchange := "" }] ∧
    cmd_history_calls s =
      [{ yahoo_symbol := s, ib_symbol := s, exchange := "" }] ∧
    cmd_profile_calls s =
      [{ yahoo_symbol := s, ib_symbol := s, exchange := "" }] ∧
    cmd_dividends_calls (some "--all") db =
      db.map (fun e =>
        { yahoo_symbol := get_yahoo_symbol e.symbol e.exchange
          ib_symbol := e.symbol
          exchange := e.exchange }) ∧
    cmd_dividends_calls none db =
      db.map (fun e =>
        { yahoo_symbol := get_yahoo_symbol e.symbol e.exchange
          ib_symbol := e.symbol
          exchange := e.exchange }) := by
  have hcond : (some s == some "--all" || some s == some "all" ||
      (some s == (none : Option String))) = false := by
    simp [h1, h2]
  refine ⟨?_, rfl, rfl, by simp [cmd_dividends_calls], by simp [cmd_dividends_calls]⟩
  simp only [cmd_dividends_calls, hcond, Bool.false_eq_true, if_false]

theorem C8_translation_amended_witness :
    ("KESKOB.HE" ≠ "--all") ∧ ("KESKOB.HE" ≠ "all") ∧
    cmd_history_calls "KESKOB.HE" =
      [{ yahoo_symbol := "KESKOB.HE", ib_symbol := "KESKOB.HE",
         exchange := "" }] :=
  ⟨by decide, by decide,
    (C8_translation_amended [] "KESKOB.HE" (by decide) (by decide)).2.1⟩

end Dividendsomatic
